import Mathlib

/-!
Verification development for the LoRA weight-merge engine and the two-stage
audio-video generation pipeline of `av_generator_lora.py`, and the stdio
request loop of `ltx_server.py`.

The Python code is shallowly embedded: keys are `List Char`, tensors are
shape-annotated functions into `ℚ` (exact arithmetic stands in for the
floating-point dtypes; `astype` casts are the identity in this model), the
heterogeneous module graph (`nn.Module` attributes, dicts, lists, `nn.Linear`
leaves) is an inductive tree, and the stdio server loop is a fold over a list
of parsed requests, tracking the lines written to the original stdout.
-/

namespace LTX

/-- Keys and paths are Python strings, modelled as lists of characters. -/
abbrev LChar := List Char

/-! ### Python string primitives used by `apply_lora_weights`

`containsSub pat hay` is Python `pat in hay` (substring containment);
`splitBefore sep hay` is Python `hay.split(sep)[0]` (everything before the
first occurrence of `sep`, the whole string when `sep` does not occur);
`replaceAll pat rep hay` is Python `hay.replace(pat, rep)` (replace every
non-overlapping occurrence, scanning left to right). -/

def containsSub (pat : LChar) : LChar → Bool
  | [] => pat.isEmpty
  | c :: t => pat.isPrefixOf (c :: t) || containsSub pat t

def splitBefore (sep : LChar) : LChar → LChar
  | [] => []
  | c :: t => if sep.isPrefixOf (c :: t) then [] else c :: splitBefore sep t

/-- Fuel-indexed worker for `replaceAll`; the fuel is an upper bound on the
number of characters still to scan, so `hay.length` is always enough. -/
def replaceAllAux (pat rep : LChar) : ℕ → LChar → LChar
  | _, [] => []
  | 0, hay => hay
  | fuel + 1, c :: t =>
    if pat ≠ [] ∧ pat.isPrefixOf (c :: t) then
      rep ++ replaceAllAux pat rep fuel (List.drop (pat.length - 1) t)
    else
      c :: replaceAllAux pat rep fuel t

def replaceAll (pat rep hay : LChar) : LChar :=
  replaceAllAux pat rep hay.length hay

/-- Position `i` of `hay` starts an occurrence of `pat`. -/
def occursAt (pat hay : LChar) (i : ℕ) : Bool :=
  pat.isPrefixOf (hay.drop i)

/-! ### Key normalizer (`sanitize_key`, source lines 94-109) -/

def dmMark : LChar := "model.diffusion_model.".toList
def tsMark : LChar := "transformer.".toList

/-- The fixed substring rewrite rules of `sanitize_key` (lines 101-107), in
source order: output-projection indexing, video feed-forward sublayers,
audio feed-forward sublayers, linear-layer numbering. -/
def renameRules : List (LChar × LChar) :=
  [(".to_out.0.".toList, ".to_out.".toList),
   (".ff.net.0.proj.".toList, ".ff.proj_in.".toList),
   (".ff.net.2.".toList, ".ff.proj_out.".toList),
   (".audio_ff.net.0.proj.".toList, ".audio_ff.proj_in.".toList),
   (".audio_ff.net.2.".toList, ".audio_ff.proj_out.".toList),
   (".linear_1.".toList, ".linear1.".toList),
   (".linear_2.".toList, ".linear2.".toList)]

/-- `sanitize_key` (lines 94-109): `key.replace("model.diffusion_model.", "")`,
then, if the result starts with `"transformer."`, `key.replace("transformer.", "")`
(note: `str.replace` rewrites every occurrence, not only the leading one),
then the seven rewrite rules in order. -/
def sanitizeKey (key : LChar) : LChar :=
  let k1 := replaceAll dmMark [] key
  let k2 := if tsMark.isPrefixOf k1 then replaceAll tsMark [] k1 else k1
  let k3 := replaceAll ".to_out.0.".toList ".to_out.".toList k2
  let k4 := replaceAll ".ff.net.0.proj.".toList ".ff.proj_in.".toList k3
  let k5 := replaceAll ".ff.net.2.".toList ".ff.proj_out.".toList k4
  let k6 := replaceAll ".audio_ff.net.0.proj.".toList ".audio_ff.proj_in.".toList k5
  let k7 := replaceAll ".audio_ff.net.2.".toList ".audio_ff.proj_out.".toList k6
  let k8 := replaceAll ".linear_1.".toList ".linear1.".toList k7
  replaceAll ".linear_2.".toList ".linear2.".toList k8

/-- The key normalizer as the claim describes it: strip a leading
`"model.diffusion_model."` (once, only at the front), strip a leading
`"transformer."` if present (once, only at the front), then the substring
replacements. Written from the spec sentence, to be compared with
`sanitizeKey`, which is written from the source. -/
def sanitizeKeySpec (key : LChar) : LChar :=
  let k1 := if dmMark.isPrefixOf key then key.drop dmMark.length else key
  let k2 := if tsMark.isPrefixOf k1 then k1.drop tsMark.length else k1
  renameRules.foldl (fun k r => replaceAll r.1 r.2 k) k2

/-- The key normalizer as amended: every occurrence of
`"model.diffusion_model."` is removed wherever it appears; if the result then
starts with `"transformer."`, every occurrence of `"transformer."` is removed;
then the fixed rule list is applied. -/
def sanitizeKeyAmended (key : LChar) : LChar :=
  let k1 := replaceAll dmMark [] key
  let k2 := if tsMark.isPrefixOf k1 then replaceAll tsMark [] k1 else k1
  renameRules.foldl (fun k r => replaceAll r.1 r.2 k) k2

/-! ### Adapter grouping (`apply_lora_weights`, source lines 111-157) -/

/-- Tensors: a shape plus exact-rational entries.  `item` is `mx.array.item()`
on a scalar tensor. -/
structure Tensor where
  rows : ℕ
  cols : ℕ
  data : ℕ → ℕ → ℚ

def item (t : Tensor) : ℚ := t.data 0 0

inductive Role where
  | down
  | up
deriving DecidableEq

def loraMark : LChar := "lora".toList
def alphaMark : LChar := "alpha".toList
def dnMark : LChar := "lora_down".toList
def upMark : LChar := "lora_up".toList
def laMark : LChar := "lora_A".toList
def lbMark : LChar := "lora_B".toList
def dnDot : LChar := ".lora_down".toList
def upDot : LChar := ".lora_up".toList
def laDot : LChar := ".lora_A".toList
def lbDot : LChar := ".lora_B".toList

/-- Down/up classification and base-name extraction (lines 121-140):
`is_down`/`is_up` by substring match against both naming conventions, then
the `elif` chain that splits the key before the matched suffix. -/
def classifyBase (key : LChar) : Option (LChar × Role) :=
  let isDownK := containsSub dnMark key || containsSub laMark key
  let isUpK := containsSub upMark key || containsSub lbMark key
  if !(isDownK || isUpK) then none
  else if containsSub dnMark key then some (splitBefore dnDot key, Role.down)
  else if containsSub upMark key then some (splitBefore upDot key, Role.up)
  else if containsSub laMark key then some (splitBefore laDot key, Role.down)
  else if containsSub lbMark key then some (splitBefore lbDot key, Role.up)
  else none

structure Group where
  down : Option Tensor
  up : Option Tensor
  alpha : Option Tensor

def emptyGroup : Group := ⟨none, none, none⟩

def setRole (g : Group) : Role → Tensor → Group
  | Role.down, v => { g with down := some v }
  | Role.up, v => { g with up := some v }

/-- Association-list lookup (first match), standing in for Python dict lookup. -/
def lookupAssoc {α : Type} (l : List (LChar × α)) (k : LChar) : Option α :=
  match l with
  | [] => none
  | (k', v) :: t => if k' = k then some v else lookupAssoc t k

/-- Insert-or-replace preserving insertion order, matching Python dict update. -/
def putGroup : List (LChar × Group) → LChar → Group → List (LChar × Group)
  | [], k, g => [(k, g)]
  | (k', g') :: t, k, g => if k' = k then (k, g) :: t else (k', g') :: putGroup t k g

/-- The alpha-candidate search of lines 149-157: the first of
`base.lora.alpha`, `base.alpha`, `base.lora_alpha` present in the loaded
mapping. -/
def firstAlphaFor (weights : List (LChar × Tensor)) (base : LChar) : Option Tensor :=
  match lookupAssoc weights (base ++ ".lora.alpha".toList) with
  | some a => some a
  | none =>
    match lookupAssoc weights (base ++ ".alpha".toList) with
    | some a => some a
    | none => lookupAssoc weights (base ++ ".lora_alpha".toList)

abbrev Groups := List (LChar × Group)

/-- One iteration of the grouping loop (lines 114-157): skip keys without the
low-rank marker, skip keys containing `"alpha"`, classify, derive and
sanitize the base name, store the tensor under its role, and attach the
first matching alpha tensor if any. -/
def groupStep (weights : List (LChar × Tensor)) (groups : Groups)
    (kv : LChar × Tensor) : Groups :=
  let key := kv.1
  if !containsSub loraMark key then groups
  else if containsSub alphaMark key then groups
  else
    match classifyBase key with
    | none => groups
    | some (base, role) =>
      let skey := sanitizeKey base
      let g0 := (lookupAssoc groups skey).getD emptyGroup
      let g1 := setRole g0 role kv.2
      let g2 :=
        match firstAlphaFor weights base with
        | some a => { g1 with alpha := some a }
        | none => g1
      putGroup groups skey g2

def buildGroups (weights : List (LChar × Tensor)) : Groups :=
  weights.foldl (groupStep weights) []

/-- The net effect of one grouping iteration on a single key: the normalized
module path it accumulates under and the semantic role it is classified to,
or `none` when the key is skipped. -/
def keyTarget (key : LChar) : Option (LChar × Role) :=
  if !containsSub loraMark key then none
  else if containsSub alphaMark key then none
  else
    match classifyBase key with
    | none => none
    | some (base, role) => some (sanitizeKey base, role)

/-! ### Frame-count adjustment (source lines 247-252)

`round((num_frames - 1) / 8) * 8 + 1`, where Python's `round` rounds halves
to the even integer.  On `Int`, `%` and `/` agree with Python's `%` and
floor division for the positive divisors used here. -/

def pyRoundDiv8 (m : Int) : Int :=
  if m % 8 < 4 then m / 8
  else if 4 < m % 8 then m / 8 + 1
  else if (m / 8) % 2 = 0 then m / 8 else m / 8 + 1

def adjustNumFrames (n : Int) : Int :=
  if n % 8 ≠ 1 then pyRoundDiv8 (n - 1) * 8 + 1 else n

/-! ### Module path resolver (source lines 168-193)

The module graph mixes attribute-addressable modules, dicts (with string or
integer keys), lists, and `nn.Linear` leaves (identified here by a weight-id
into the model's weight store).  Builtin method attributes of dicts/lists and
the attributes of `nn.Linear` itself are not modelled: path segments only name
submodules. -/

inductive PyObj where
  | obj (attrs : List (LChar × PyObj))
  | dict (strEntries : List (LChar × PyObj)) (natEntries : List (ℕ × PyObj))
  | list (items : List PyObj)
  | linear (wid : ℕ)

def PyObj.isLinear : PyObj → Bool
  | .linear _ => true
  | _ => false

def attrLookup : PyObj → LChar → Option PyObj
  | .obj attrs, a => lookupAssoc attrs a
  | _, _ => none

def hasattrB (o : PyObj) (a : LChar) : Bool := (attrLookup o a).isSome

def dictStrLookup : PyObj → LChar → Option PyObj
  | .dict strs _, k => lookupAssoc strs k
  | _, _ => none

def lookupNat {α : Type} (l : List (ℕ × α)) (k : ℕ) : Option α :=
  match l with
  | [] => none
  | (k', v) :: t => if k' = k then some v else lookupNat t k

def dictNatLookup : PyObj → ℕ → Option PyObj
  | .dict _ nats, k => lookupNat nats k
  | _, _ => none

def PyObj.isDict : PyObj → Bool
  | .dict _ _ => true
  | _ => false

def PyObj.isList : PyObj → Bool
  | .list _ => true
  | _ => false

def listGet : PyObj → ℕ → Option PyObj
  | .list items, i => items.get? i
  | _, _ => none

/-- Python `str.isdigit()` on the ASCII segments that occur in module paths. -/
def isDigits (s : LChar) : Bool := !s.isEmpty && s.all Char.isDigit

/-- Python `int(part)` for an all-digit segment. -/
def toNatVal (s : LChar) : ℕ := s.foldl (fun a c => a * 10 + (c.toNat - 48)) 0

def tbMark : LChar := "transformer_blocks".toList

/-- One segment of the resolution walk (lines 173-190), with the source's
branch order: attribute access; dict string key; dict integer key; list index
(an out-of-range index fails the whole path); the named
`transformer_blocks` fallback. -/
def resolveStep (o : PyObj) (part : LChar) : Option PyObj :=
  if hasattrB o part then attrLookup o part
  else if o.isDict && (dictStrLookup o part).isSome then dictStrLookup o part
  else if o.isDict && isDigits part && (dictNatLookup o (toNatVal part)).isSome then
    dictNatLookup o (toNatVal part)
  else if o.isList && isDigits part then listGet o (toNatVal part)
  else if hasattrB o tbMark && part = tbMark then attrLookup o tbMark
  else none

/-- The five strategies of the chain, each on its own, in claim order. -/
def tryAttr (o : PyObj) (part : LChar) : Option PyObj := attrLookup o part

def tryKey (o : PyObj) (part : LChar) : Option PyObj := dictStrLookup o part

def tryIntKey (o : PyObj) (part : LChar) : Option PyObj :=
  if isDigits part then dictNatLookup o (toNatVal part) else none

def tryIdx (o : PyObj) (part : LChar) : Option PyObj :=
  if o.isList && isDigits part then listGet o (toNatVal part) else none

def tryBlocks (o : PyObj) (part : LChar) : Option PyObj :=
  if part = tbMark then attrLookup o tbMark else none

/-- `module_name.split('.')` (Python semantics: `"" → [""]`). -/
def splitOnDot : LChar → List LChar
  | [] => [[]]
  | c :: t =>
    if c = '.' then [] :: splitOnDot t
    else
      match splitOnDot t with
      | [] => [[c]]
      | h :: r => (c :: h) :: r

def resolveParts : PyObj → List LChar → Option PyObj
  | o, [] => some o
  | o, p :: rest =>
    match resolveStep o p with
    | some o' => resolveParts o' rest
    | none => none

def resolve (root : PyObj) (name : LChar) : Option PyObj :=
  resolveParts root (splitOnDot name)

def resolvesToLinear (root : PyObj) (name : LChar) : Bool :=
  match resolve root name with
  | some o => o.isLinear
  | none => false

/-! ### Delta merge engine (source lines 159-211) -/

/-- The model under patching: its module graph and, per linear-layer id, the
current weight tensor. -/
structure Model where
  graph : PyObj
  weights : ℕ → Tensor

/-- `scale = alpha / rank if alpha is not None else 1.0` (lines 197-203). -/
def loraScale (alphaVal : Option ℚ) (rank : ℕ) : ℚ :=
  match alphaVal with
  | some a => a / rank
  | none => 1

/-- `(up @ down) i j`; the contraction length is `rank = down.shape[0]`. -/
def matMulData (up down : Tensor) : ℕ → ℕ → ℚ := fun i j =>
  (Finset.range down.rows).sum fun k => up.data i k * down.data k j

/-- Lines 195-210 applied to one weight tensor:
`weight ← weight + (up @ down) * (scale * strength)` (the `astype` cast is the
identity in the exact-arithmetic model). -/
def mergeDelta (w up down : Tensor) (alphaVal : Option ℚ) (strength : ℚ) : Tensor :=
  { w with data := fun i j =>
      w.data i j + matMulData up down i j * (loraScale alphaVal down.rows * strength) }

/-- One iteration of the merge loop (lines 161-211): skip groups missing
`down` or `up`; resolve the module path; skip unresolved paths and
non-linear targets; otherwise merge the delta into that layer's weight. -/
def mergeOne (strength : ℚ) (m : Model) (e : LChar × Group) : Model :=
  match e.2.down, e.2.up with
  | some down, some up =>
    match resolve m.graph e.1 with
    | some (PyObj.linear wid) =>
      { m with weights := fun n =>
          if n = wid then mergeDelta (m.weights n) up down (e.2.alpha.map item) strength
          else m.weights n }
    | _ => m
  | _, _ => m

def applyGroups (m : Model) (groups : Groups) (strength : ℚ) : Model :=
  groups.foldl (mergeOne strength) m

/-- `apply_lora_weights` (lines 79-211).  The filesystem check of line 81 and
the archive load of lines 87-91 are abstracted into the `fileExists` flag and
the `loadResult` outcome: when the path is missing or the load raises, the
function returns with the model untouched. -/
def applyLoraWeights (fileExists : Bool) (loadResult : Except String (List (LChar × Tensor)))
    (m : Model) (strength : ℚ) : Model :=
  if !fileExists then m
  else
    match loadResult with
    | .error _ => m
    | .ok lw => applyGroups m (buildGroups lw) strength

/-! ### Stage-1 → stage-2 transition (source lines 500-584)

Latent tensors are modelled as functions from a flat index into `ℚ`, with
the pointwise arithmetic the source performs on them.  The spatial 2x
upsampler (`upsample_latents`, an external collaborator) is an abstract
function parameter. -/

abbrev Lat := ℕ → ℚ

/-- Partial re-noising at a sigma: `noise * sigma + clean * (1 - sigma)`;
this is the spec's notion of re-noising clean content at a stage's starting
sigma. -/
def renoise (sigma : ℚ) (noise clean : Lat) : Lat :=
  fun i => noise i * sigma + clean i * (1 - sigma)

/-- The text-to-video stage transition (lines 530-533 and 577-584): upsample
the stage-1 video latent, then with `noise_scale = STAGE_2_SIGMAS[0]` and
`one_minus_scale = 1 - noise_scale` form
`video_noise * noise_scale + video_latents * one_minus_scale` and
`audio_noise * noise_scale + audio_latents * one_minus_scale`.  Returns the
pair of stage-2 initial latents. -/
def stageTransition (upsample : Lat → Lat) (sigma2 : ℚ)
    (videoLat audioLat vNoise aNoise : Lat) : Lat × Lat :=
  let upsampled := upsample videoLat
  let oneMinus := 1 - sigma2
  (fun i => vNoise i * sigma2 + upsampled i * oneMinus,
   fun i => aNoise i * sigma2 + audioLat i * oneMinus)

/-! ### Server request loop (`ltx_server.py`, lines 37-154)

Requests are modelled after parsing; a `generate` request carries the
parameters the response echoes and the outcome of the `generate_av` call
(`Except.error` for a raised Python `Exception`, the class the inner handler
catches).  The state tracks whether file descriptor 1 is currently redirected
to stderr and the list of JSON lines written to the original stdout. -/

structure GenParams where
  outputPath : LChar
  seed : Int
  isI2V : Bool
  noAudio : Bool

inductive Request where
  | ping
  | generate (params : GenParams) (outcome : Except String Unit)
  | invalidJson
  | otherCmd

/-- A JSON object line written to the original stdout. -/
inductive RLine where
  | pong
  | genOk (videoPath : LChar) (seed : Int) (isI2V : Bool) (hasAudio : Bool)
  | genErr (error : String)

def RLine.successFlag : RLine → Option Bool
  | .pong => none
  | .genOk _ _ _ _ => some true
  | .genErr _ => some false

def RLine.errorField : RLine → Option String
  | .genErr e => some e
  | _ => none

structure SrvState where
  redirected : Bool
  stdoutLines : List RLine

/-- The response object built by lines 128-140. -/
def genResult (p : GenParams) : Except String Unit → RLine
  | .ok _ => RLine.genOk p.outputPath p.seed p.isI2V (!p.noAudio)
  | .error e => RLine.genErr e

/-- The `generate` handler (lines 73-148): redirect stdout to stderr
(`os.dup2(2, 1)`), run the generation with the `try/except Exception`
building the result, restore stdout in the `finally`, then print exactly one
JSON line — to the by-then-restored original stdout. -/
def handleGenerate (st : SrvState) (p : GenParams) (outcome : Except String Unit) : SrvState :=
  let st1 : SrvState := { st with redirected := true }
  let result := genResult p outcome
  let st2 : SrvState := { st1 with redirected := false }
  { st2 with stdoutLines := st2.stdoutLines ++ [result] }

/-- One iteration of the `while True` loop (lines 52-148) on an already-read
line: `ping` answers on stdout, invalid JSON and unknown commands only log to
stderr, `generate` runs the handler. -/
def handleLine (st : SrvState) : Request → SrvState
  | .ping => { st with stdoutLines := st.stdoutLines ++ [RLine.pong] }
  | .invalidJson => st
  | .otherCmd => st
  | .generate p outcome => handleGenerate st p outcome

def serverLoop (st : SrvState) (reqs : List Request) : SrvState :=
  reqs.foldl handleLine st

/-- Number of stdout response lines a request produces. -/
def responseCount : Request → ℕ
  | .ping => 1
  | .generate _ _ => 1
  | .invalidJson => 0
  | .otherCmd => 0

def responsesOf (reqs : List Request) : ℕ :=
  (reqs.map responseCount).sum

/-! ### Helper lemmas on the string primitives -/

lemma isPrefixOf_append_ext {p h : LChar} (z : LChar) (hp : p.isPrefixOf h = true) :
    p.isPrefixOf (h ++ z) = true := by
  rw [List.isPrefixOf_iff_prefix] at hp ⊢
  exact hp.trans (List.prefix_append h z)

lemma containsSub_empty_pat (l : LChar) : containsSub [] l = true := by
  cases l with
  | nil => rfl
  | cons c t => simp [containsSub]

lemma containsSub_append_right {p h : LChar} (z : LChar) (hp : containsSub p h = true) :
    containsSub p (h ++ z) = true := by
  induction h with
  | nil =>
    have : p = [] := by simpa [containsSub, List.isEmpty_iff] using hp
    subst this
    exact containsSub_empty_pat z
  | cons c t ih =>
    rw [containsSub] at hp
    rcases Bool.or_eq_true_iff.mp hp with h1 | h1
    · rw [List.cons_append, containsSub]
      exact Bool.or_eq_true_iff.mpr (Or.inl (isPrefixOf_append_ext z h1))
    · rw [List.cons_append, containsSub]
      exact Bool.or_eq_true_iff.mpr (Or.inr (ih h1))

lemma containsSub_append_left {p z : LChar} (h : LChar) (hp : containsSub p z = true) :
    containsSub p (h ++ z) = true := by
  induction h with
  | nil => simpa using hp
  | cons c t ih =>
    rw [List.cons_append, containsSub]
    exact Bool.or_eq_true_iff.mpr (Or.inr ih)

lemma containsSub_middle {p m : LChar} (b rest : LChar) (hm : containsSub p m = true) :
    containsSub p (b ++ m ++ rest) = true := by
  rw [List.append_assoc]
  exact containsSub_append_left b (containsSub_append_right rest hm)

lemma splitBefore_append {sep : LChar} (hsep : sep ≠ []) (b rest : LChar)
    (h : ∀ i, i < b.length → occursAt sep (b ++ sep ++ rest) i = false) :
    splitBefore sep (b ++ sep ++ rest) = b := by
  induction b with
  | nil =>
    cases sep with
    | nil => exact absurd rfl hsep
    | cons s st =>
      have hp : (s :: st).isPrefixOf ((s :: st) ++ rest) = true :=
        isPrefixOf_append_ext rest (by rw [List.isPrefixOf_iff_prefix])
      have hrw : ([] : LChar) ++ (s :: st) ++ rest = s :: (st ++ rest) := by simp
      rw [hrw]
      have hp' : (s :: st).isPrefixOf (s :: (st ++ rest)) = true := hp
      simp only [splitBefore, hp', if_true]
  | cons c t ih =>
    have hrw : (c :: t) ++ sep ++ rest = c :: (t ++ sep ++ rest) := by simp
    have h0 : sep.isPrefixOf (c :: (t ++ sep ++ rest)) = false := by
      have h0' := h 0 (by simp)
      rw [hrw] at h0'
      simpa [occursAt] using h0'
    rw [hrw]
    simp only [splitBefore, h0, Bool.false_eq_true, if_false]
    rw [ih]
    intro i hi
    have hi' := h (i + 1) (by simpa using Nat.succ_lt_succ hi)
    rw [hrw] at hi'
    simpa [occursAt] using hi'

/-! ### Helper lemmas on the delta merge -/

lemma mergeDelta_eq (w up down : Tensor) (alphaVal : Option ℚ) (s : ℚ) :
    mergeDelta w up down alphaVal s =
      { w with data := fun i j =>
          w.data i j + matMulData up down i j * (loraScale alphaVal down.rows * s) } := rfl

lemma mergeDelta_twice (w up down : Tensor) (alphaVal : Option ℚ) (s : ℚ) :
    mergeDelta (mergeDelta w up down alphaVal s) up down alphaVal s =
      { w with data := fun i j =>
          w.data i j + 2 * (matMulData up down i j * (loraScale alphaVal down.rows * s)) } := by
  cases w
  simp only [mergeDelta, Tensor.mk.injEq, true_and]
  funext i j
  ring

lemma mergeDelta_zero (w up down : Tensor) (alphaVal : Option ℚ) :
    mergeDelta w up down alphaVal 0 = w := by
  cases w
  simp only [mergeDelta, Tensor.mk.injEq, true_and]
  funext i j
  ring

lemma mergeOne_zero (m : Model) (e : LChar × Group) : mergeOne 0 m e = m := by
  unfold mergeOne
  cases hd : e.2.down with
  | none => rfl
  | some down =>
    cases hu : e.2.up with
    | none => rfl
    | some up =>
      cases hres : resolve m.graph e.1 with
      | none => rfl
      | some o =>
        cases o with
        | linear wid =>
          have hw : (fun n => if n = wid then mergeDelta (m.weights n) up down (e.2.alpha.map item) 0
              else m.weights n) = m.weights := by
            funext n
            split <;> simp [mergeDelta_zero]
          simp only [hw]
        | obj attrs => rfl
        | dict s t => rfl
        | list l => rfl

lemma applyGroups_zero (groups : Groups) (m : Model) : applyGroups m groups 0 = m := by
  induction groups generalizing m with
  | nil => rfl
  | cons g t ih =>
    show applyGroups (mergeOne 0 m g) t 0 = m
    rw [mergeOne_zero, ih]

/-! ### Claim theorems -/

/-- Claim C1: the delta merge is additive.  One application at strength `s`
adds `(up @ down) * ((alpha / rank if alpha present else 1) * s)` to a
resolved linear layer's weight; applying the same group twice at strength `s`
yields the initial weight plus twice that delta (the merge doubles its
effect, it is not idempotent); and with no alpha, applying twice at `s`
equals applying once at `2 * s`. -/
theorem c1_delta_merge_additive :
    (∀ (w up down : Tensor) (alphaVal : Option ℚ) (s : ℚ),
      mergeDelta w up down alphaVal s =
        { w with data := fun i j =>
            w.data i j + matMulData up down i j * (loraScale alphaVal down.rows * s) })
    ∧ (∀ (w up down : Tensor) (alphaVal : Option ℚ) (s : ℚ),
      mergeDelta (mergeDelta w up down alphaVal s) up down alphaVal s =
        { w with data := fun i j =>
            w.data i j + 2 * (matMulData up down i j * (loraScale alphaVal down.rows * s)) })
    ∧ (∀ (w up down : Tensor) (s : ℚ),
      mergeDelta (mergeDelta w up down none s) up down none s =
        mergeDelta w up down none (2 * s))
    ∧ (∀ (m : Model) (e : LChar × Group) (s : ℚ) (wid : ℕ) (down up : Tensor),
      e.2.down = some down → e.2.up = some up →
      resolve m.graph e.1 = some (PyObj.linear wid) →
      (mergeOne s (mergeOne s m e) e).weights wid =
        { m.weights wid with data := fun i j =>
            (m.weights wid).data i j
              + 2 * (matMulData up down i j
                  * (loraScale (e.2.alpha.map item) down.rows * s)) }) := by
  refine ⟨fun w up down a s => rfl, mergeDelta_twice, ?_, ?_⟩
  · intro w up down s
    cases w
    simp only [mergeDelta, Tensor.mk.injEq, loraScale, true_and]
    funext i j
    ring
  · intro m e s wid down up hd hu hres
    have h1 : mergeOne s m e =
        { m with weights := fun n =>
            if n = wid then mergeDelta (m.weights n) up down (e.2.alpha.map item) s
            else m.weights n } := by
      unfold mergeOne
      rw [hd, hu, hres]
    have h2 : (mergeOne s (mergeOne s m e) e).weights wid =
        mergeDelta (mergeDelta (m.weights wid) up down (e.2.alpha.map item) s)
          up down (e.2.alpha.map item) s := by
      rw [h1]
      unfold mergeOne
      rw [hd, hu]
      simp [hres]
    rw [h2, mergeDelta_twice]

/-- Concrete data for the C1 witness: a model whose graph has an attribute
`layers` holding a list with one linear layer, and a complete group whose
path resolves to it. -/
def c1WitTensor : Tensor := ⟨1, 1, fun _ _ => 1⟩

def c1WitModel : Model :=
  ⟨PyObj.obj [("layers".toList, PyObj.list [PyObj.linear 0])], fun _ => c1WitTensor⟩

def c1WitEntry : LChar × Group :=
  ("layers.0".toList, ⟨some c1WitTensor, some c1WitTensor, none⟩)

/-- Claim C1 witness: on a concrete resolved layer with a complete group and
no alpha, merging the same entry twice at strength 1 adds exactly twice the
delta to the initial weight. -/
theorem c1_delta_merge_additive_witness :
    c1WitEntry.2.down = some c1WitTensor
    ∧ c1WitEntry.2.up = some c1WitTensor
    ∧ resolve c1WitModel.graph c1WitEntry.1 = some (PyObj.linear 0)
    ∧ (mergeOne 1 (mergeOne 1 c1WitModel c1WitEntry) c1WitEntry).weights 0 =
        { c1WitModel.weights 0 with data := fun i j =>
            (c1WitModel.weights 0).data i j
              + 2 * (matMulData c1WitTensor c1WitTensor i j
                  * (loraScale (c1WitEntry.2.alpha.map item) c1WitTensor.rows * 1)) } :=
  ⟨rfl, rfl, rfl,
   c1_delta_merge_additive.2.2.2 c1WitModel c1WitEntry 1 0 c1WitTensor c1WitTensor rfl rfl rfl⟩

/-- Claim C2: with strength 0, `apply_lora_weights` leaves every weight
tensor identical to its pre-merge value, for any model and any adapter
file (in the exact-arithmetic model of the tensor dtypes). -/
theorem c2_strength_zero_identity :
    ∀ (fe : Bool) (lr : Except String (List (LChar × Tensor))) (m : Model),
      applyLoraWeights fe lr m 0 = m := by
  intro fe lr m
  unfold applyLoraWeights
  cases fe with
  | false => rfl
  | true =>
    cases lr with
    | error e => rfl
    | ok lw => exact applyGroups_zero _ m

/-- Claim C4: a frame count with `count % 8 = 1` is left unchanged; any other
integer frame count is adjusted to a value with remainder 1 mod 8 that is
nearest among all such values (ties broken by Python's round-half-even); in
particular 64 becomes 65, 66 becomes 65, and 73 stays 73. -/
theorem c4_frame_count_rounding :
    (∀ n : Int, n % 8 = 1 → adjustNumFrames n = n)
    ∧ (∀ n : Int, adjustNumFrames n % 8 = 1)
    ∧ (∀ n k : Int, k % 8 = 1 → (adjustNumFrames n - n).natAbs ≤ (k - n).natAbs)
    ∧ adjustNumFrames 64 = 65 ∧ adjustNumFrames 66 = 65 ∧ adjustNumFrames 73 = 73 := by
  refine ⟨?_, ?_, ?_, by decide, by decide, by decide⟩
  · intro n h
    simp [adjustNumFrames, h]
  · intro n
    unfold adjustNumFrames pyRoundDiv8
    split_ifs <;> omega
  · intro n k hk
    unfold adjustNumFrames pyRoundDiv8
    split_ifs <;> omega

/-- Claim C4 witness: 17 is conforming and stays 17; 20 is adjusted, and its
adjustment is at least as close to 20 as the conforming value 17. -/
theorem c4_frame_count_rounding_witness :
    adjustNumFrames 17 = 17 ∧ (adjustNumFrames 20 - 20).natAbs ≤ ((17 : Int) - 20).natAbs :=
  ⟨c4_frame_count_rounding.1 17 (by decide),
   c4_frame_count_rounding.2.2.1 20 17 (by decide)⟩

/-- Claim C5: at the stage-1 → stage-2 transition, the stage-2 video input is
the spatially upsampled stage-1 video latent re-noised at stage 2's starting
sigma, and the stage-2 audio input is the stage-1 audio latent, unchanged in
content, re-noised by exactly the same formula at the same sigma. -/
theorem c5_stage_transition :
    ∀ (upsample : Lat → Lat) (sigma2 : ℚ) (videoLat audioLat vNoise aNoise : Lat),
      (stageTransition upsample sigma2 videoLat audioLat vNoise aNoise).1
          = renoise sigma2 vNoise (upsample videoLat)
      ∧ (stageTransition upsample sigma2 videoLat audioLat vNoise aNoise).2
          = renoise sigma2 aNoise audioLat := by
  intro upsample sigma2 videoLat audioLat vNoise aNoise
  exact ⟨rfl, rfl⟩

/-- Claim C10: each `generate` request writes exactly one JSON line to the
original stdout — `success: true` on normal completion, `success: false` with
the error string when the generation raises — the stdout redirection is
undone in both cases, and the loop goes on to the remaining requests either
way, so over a whole run every request yields exactly its one response
line. -/
theorem c10_server_one_response :
    (∀ (st : SrvState) (p : GenParams),
      handleLine st (Request.generate p (Except.ok ())) =
        { redirected := false,
          stdoutLines := st.stdoutLines
            ++ [RLine.genOk p.outputPath p.seed p.isI2V (!p.noAudio)] })
    ∧ (∀ (st : SrvState) (p : GenParams) (e : String),
      handleLine st (Request.generate p (Except.error e)) =
        { redirected := false, stdoutLines := st.stdoutLines ++ [RLine.genErr e] })
    ∧ (∀ (p : GenParams),
      (genResult p (Except.ok ())).successFlag = some true)
    ∧ (∀ (p : GenParams) (e : String),
      (genResult p (Except.error e)).successFlag = some false
        ∧ (genResult p (Except.error e)).errorField = some e)
    ∧ (∀ (st : SrvState) (p : GenParams) (outcome : Except String Unit)
        (rest : List Request),
      serverLoop st (Request.generate p outcome :: rest) =
        serverLoop (handleLine st (Request.generate p outcome)) rest)
    ∧ (∀ (st : SrvState) (reqs : List Request),
      (serverLoop st reqs).stdoutLines.length
        = st.stdoutLines.length + responsesOf reqs) := by
  refine ⟨fun st p => rfl, fun st p e => rfl, fun p => rfl, fun p e => ⟨rfl, rfl⟩,
    fun st p outcome rest => rfl, ?_⟩
  intro st reqs
  induction reqs generalizing st with
  | nil => simp [serverLoop, responsesOf]
  | cons r t ih =>
    show (serverLoop (handleLine st r) t).stdoutLines.length = _
    rw [ih]
    cases r with
    | ping => simp [handleLine, responsesOf, responseCount]; omega
    | invalidJson => simp [handleLine, responsesOf, responseCount]
    | otherCmd => simp [handleLine, responsesOf, responseCount]
    | generate p outcome =>
      cases outcome <;>
        simp [handleLine, handleGenerate, responsesOf, responseCount, genResult] <;> omega

/-- Claim C3: at each path segment the resolver tries, in order, attribute
access, mapping-key lookup, mapping lookup with the segment parsed as an
integer, sequence indexing with the segment parsed as an integer, and the
named `transformer_blocks` fallback (first success wins); and when a group's
path does not resolve to a linear layer, that entry is skipped — the model is
untouched by it — and the merge of the remaining entries continues. -/
theorem c3_resolver_order_and_soft_skip :
    (∀ (o : PyObj) (part : LChar),
      resolveStep o part =
        (tryAttr o part).orElse fun _ =>
          (tryKey o part).orElse fun _ =>
            (tryIntKey o part).orElse fun _ =>
              (tryIdx o part).orElse fun _ => tryBlocks o part)
    ∧ (∀ (m : Model) (e : LChar × Group) (rest : Groups) (s : ℚ),
      resolvesToLinear m.graph e.1 = false →
      applyGroups m (e :: rest) s = applyGroups m rest s) := by
  constructor
  · intro o part
    cases o with
    | obj attrs =>
      cases h1 : lookupAssoc attrs part with
      | some v =>
        simp [resolveStep, tryAttr, attrLookup, hasattrB, h1, Option.orElse]
      | none =>
        cases h2 : lookupAssoc attrs tbMark with
        | some v =>
          by_cases h3 : part = tbMark
          · subst h3
            simp_all
          · simp [resolveStep, tryAttr, tryKey, tryIntKey, tryIdx, tryBlocks, attrLookup,
              hasattrB, dictStrLookup, dictNatLookup, PyObj.isDict, PyObj.isList,
              h1, h2, h3, Option.orElse]
        | none =>
          by_cases h3 : part = tbMark <;>
            simp [resolveStep, tryAttr, tryKey, tryIntKey, tryIdx, tryBlocks, attrLookup,
              hasattrB, dictStrLookup, dictNatLookup, PyObj.isDict, PyObj.isList,
              h1, h2, h3, Option.orElse]
    | dict strs nats =>
      cases h1 : lookupAssoc strs part with
      | some v =>
        simp [resolveStep, tryAttr, tryKey, attrLookup, hasattrB, dictStrLookup,
          PyObj.isDict, h1, Option.orElse]
      | none =>
        by_cases hd : isDigits part
        · cases h2 : lookupNat nats (toNatVal part) with
          | some v =>
            simp [resolveStep, tryAttr, tryKey, tryIntKey, tryIdx, tryBlocks, attrLookup,
              hasattrB, dictStrLookup, dictNatLookup, PyObj.isDict, PyObj.isList,
              h1, h2, hd, Option.orElse]
          | none =>
            simp [resolveStep, tryAttr, tryKey, tryIntKey, tryIdx, tryBlocks, attrLookup,
              hasattrB, dictStrLookup, dictNatLookup, PyObj.isDict, PyObj.isList,
              h1, h2, hd, Option.orElse]
        · simp [resolveStep, tryAttr, tryKey, tryIntKey, tryIdx, tryBlocks, attrLookup,
            hasattrB, dictStrLookup, dictNatLookup, PyObj.isDict, PyObj.isList,
            h1, hd, Option.orElse]
    | list items =>
      by_cases hd : isDigits part
      · simp only [resolveStep, tryAttr, tryKey, tryIntKey, tryIdx, tryBlocks, attrLookup,
          hasattrB, dictStrLookup, dictNatLookup, listGet, PyObj.isDict, PyObj.isList,
          hd, Option.orElse, Option.isSome_none, Bool.false_and, Bool.and_false,
          Bool.true_and, Bool.and_true, Bool.false_eq_true, if_false, if_true]
        cases items.get? (toNatVal part) <;> simp
      · simp [resolveStep, tryAttr, tryKey, tryIntKey, tryIdx, tryBlocks, attrLookup,
          hasattrB, dictStrLookup, dictNatLookup, listGet, PyObj.isDict, PyObj.isList,
          hd, Option.orElse]
    | linear wid =>
      simp [resolveStep, tryAttr, tryKey, tryIntKey, tryIdx, tryBlocks, attrLookup,
        hasattrB, dictStrLookup, dictNatLookup, listGet, PyObj.isDict, PyObj.isList,
        Option.orElse]
  · intro m e rest s hres
    have hskip : mergeOne s m e = m := by
      unfold mergeOne
      cases hd : e.2.down with
      | none => rfl
      | some down =>
        cases hu : e.2.up with
        | none => rfl
        | some up =>
          cases hr : resolve m.graph e.1 with
          | none => rfl
          | some o =>
            cases o with
            | linear wid =>
              rw [resolvesToLinear, hr] at hres
              exact absurd hres (by simp [PyObj.isLinear])
            | obj attrs => rfl
            | dict a b => rfl
            | list l => rfl
    show (e :: rest).foldl (mergeOne s) m = applyGroups m rest s
    rw [List.foldl_cons, hskip]
    rfl

/-- Concrete data for the C3 witness: a model whose graph has an attribute
`blocks` holding a list with a single linear layer, and an adapter entry
whose path names a segment that exists nowhere in the graph. -/
def c3WitTensor : Tensor := ⟨1, 1, fun _ _ => 1⟩

def c3WitModel : Model :=
  ⟨PyObj.obj [("blocks".toList, PyObj.list [PyObj.linear 0])], fun _ => c3WitTensor⟩

def c3WitEntry : LChar × Group :=
  ("missing.path".toList, ⟨some c3WitTensor, some c3WitTensor, none⟩)

/-- Claim C3 witness: the unresolvable entry's path indeed fails to resolve
to a linear layer, and merging a group list starting with it equals merging
the rest alone. -/
theorem c3_resolver_order_and_soft_skip_witness :
    resolvesToLinear c3WitModel.graph c3WitEntry.1 = false
      ∧ applyGroups c3WitModel [c3WitEntry] 1 = applyGroups c3WitModel [] 1 :=
  ⟨by decide, c3_resolver_order_and_soft_skip.2 c3WitModel c3WitEntry [] 1 (by decide)⟩

/-- Claim C7 counterexample: `sanitize_key` rewrites every occurrence of
`"model.diffusion_model."`, not only an outer prefix: on the key
`"a.model.diffusion_model.b"` (where the marker is not the outer prefix and
no rewrite rule applies) the source function disagrees with the claim's
description, which would leave the key untouched. -/
theorem c7_sanitize_prefix_counterexample :
    sanitizeKey "a.model.diffusion_model.b".toList
      ≠ sanitizeKeySpec "a.model.diffusion_model.b".toList := by decide

/-- Claim C7 as amended: the key normalizer is a pure string transform that,
in fixed order, removes every occurrence of `"model.diffusion_model."`
anywhere in the key, then — if the result starts with `"transformer."` —
removes every occurrence of `"transformer."`, and then applies the fixed
list of substring replacements (output-projection indexing, video and audio
feed-forward sublayer naming, linear-layer numbering), touching nothing
else in the key. -/
theorem c7_sanitize_amended :
    ∀ key : LChar, sanitizeKey key = sanitizeKeyAmended key := by
  intro key
  simp only [sanitizeKey, sanitizeKeyAmended, renameRules, List.foldl_cons, List.foldl_nil]

/-- Claim C8: when the adapter file path does not exist, or loading the
archive raises, `apply_lora_weights` returns with every weight of the model
unmodified (LoRA application is skipped entirely). -/
theorem c8_missing_or_unreadable_file_skips :
    (∀ (lr : Except String (List (LChar × Tensor))) (m : Model) (s : ℚ),
      applyLoraWeights false lr m s = m)
    ∧ (∀ (fe : Bool) (e : String) (m : Model) (s : ℚ),
      applyLoraWeights fe (Except.error e) m s = m) := by
  constructor
  · intro lr m s
    rfl
  · intro fe e m s
    cases fe <;> rfl

lemma groupStep_alpha_skip (weights : List (LChar × Tensor)) (groups : Groups)
    (key : LChar) (v : Tensor) (h : containsSub alphaMark key = true) :
    groupStep weights groups (key, v) = groups := by
  unfold groupStep
  simp only [h]
  split <;> rfl

/-- Claim C9: any key containing the substring `"alpha"` anywhere is skipped
by the grouping loop before down/up classification; in particular a module
whose own base path contains `"alpha"` never has a down or up tensor grouped
for it under any of the four suffix conventions, and a mapping made only of
such keys groups to nothing. -/
theorem c9_alpha_keys_skipped :
    (∀ (weights : List (LChar × Tensor)) (groups : Groups) (key : LChar) (v : Tensor),
      containsSub alphaMark key = true →
      groupStep weights groups (key, v) = groups)
    ∧ (∀ (weights : List (LChar × Tensor)) (groups : Groups) (b rest : LChar) (v : Tensor),
      containsSub alphaMark b = true →
      groupStep weights groups (b ++ dnDot ++ rest, v) = groups
      ∧ groupStep weights groups (b ++ upDot ++ rest, v) = groups
      ∧ groupStep weights groups (b ++ laDot ++ rest, v) = groups
      ∧ groupStep weights groups (b ++ lbDot ++ rest, v) = groups)
    ∧ (∀ (entries weights : List (LChar × Tensor)) (groups : Groups),
      (∀ kv ∈ entries, containsSub alphaMark kv.1 = true) →
      entries.foldl (groupStep weights) groups = groups) := by
  refine ⟨groupStep_alpha_skip, ?_, ?_⟩
  · intro weights groups b rest v h
    have hmid : ∀ suf : LChar, containsSub alphaMark (b ++ suf ++ rest) = true := by
      intro suf
      rw [List.append_assoc]
      exact containsSub_append_right _ h
    exact ⟨groupStep_alpha_skip _ _ _ _ (hmid dnDot), groupStep_alpha_skip _ _ _ _ (hmid upDot),
      groupStep_alpha_skip _ _ _ _ (hmid laDot), groupStep_alpha_skip _ _ _ _ (hmid lbDot)⟩
  · intro entries weights groups hall
    induction entries generalizing groups with
    | nil => rfl
    | cons kv t ih =>
      rw [List.foldl_cons, groupStep_alpha_skip _ _ _ _ (hall kv (List.mem_cons_self kv t))]
      exact ih groups (fun kv' hkv' => hall kv' (List.mem_cons_of_mem kv hkv'))

/-- Claim C6: for a module base path `b`, keys naming its down (resp. up)
tensor under the `lora_down`/`lora_up` convention and under the
`lora_A`/`lora_B` convention are classified to the same semantic role, have
the same base extracted, normalize to the same module path
`sanitizeKey b`, and drive the grouping step identically.  The hypotheses
say the keys are well-formed: no `"alpha"` substring, no occurrence of a
marker of the other convention, and the role suffix occurs only at the end
of the base. -/
theorem c6_naming_convention_equivalence (b rest : LChar)
    (h1 : containsSub alphaMark (b ++ dnDot ++ rest) = false)
    (h2 : ∀ i, i < b.length → occursAt dnDot (b ++ dnDot ++ rest) i = false)
    (h3 : containsSub alphaMark (b ++ laDot ++ rest) = false)
    (h4 : containsSub dnMark (b ++ laDot ++ rest) = false)
    (h5 : containsSub upMark (b ++ laDot ++ rest) = false)
    (h6 : ∀ i, i < b.length → occursAt laDot (b ++ laDot ++ rest) i = false)
    (h7 : containsSub alphaMark (b ++ upDot ++ rest) = false)
    (h8 : containsSub dnMark (b ++ upDot ++ rest) = false)
    (h9 : ∀ i, i < b.length → occursAt upDot (b ++ upDot ++ rest) i = false)
    (h10 : containsSub alphaMark (b ++ lbDot ++ rest) = false)
    (h11 : containsSub dnMark (b ++ lbDot ++ rest) = false)
    (h12 : containsSub upMark (b ++ lbDot ++ rest) = false)
    (h13 : containsSub laMark (b ++ lbDot ++ rest) = false)
    (h14 : ∀ i, i < b.length → occursAt lbDot (b ++ lbDot ++ rest) i = false) :
    classifyBase (b ++ dnDot ++ rest) = some (b, Role.down)
    ∧ classifyBase (b ++ laDot ++ rest) = some (b, Role.down)
    ∧ classifyBase (b ++ upDot ++ rest) = some (b, Role.up)
    ∧ classifyBase (b ++ lbDot ++ rest) = some (b, Role.up)
    ∧ keyTarget (b ++ dnDot ++ rest) = some (sanitizeKey b, Role.down)
    ∧ keyTarget (b ++ laDot ++ rest) = some (sanitizeKey b, Role.down)
    ∧ keyTarget (b ++ upDot ++ rest) = some (sanitizeKey b, Role.up)
    ∧ keyTarget (b ++ lbDot ++ rest) = some (sanitizeKey b, Role.up)
    ∧ (∀ (weights : List (LChar × Tensor)) (groups : Groups) (v : Tensor),
        groupStep weights groups (b ++ dnDot ++ rest, v)
          = groupStep weights groups (b ++ laDot ++ rest, v))
    ∧ (∀ (weights : List (LChar × Tensor)) (groups : Groups) (v : Tensor),
        groupStep weights groups (b ++ upDot ++ rest, v)
          = groupStep weights groups (b ++ lbDot ++ rest, v)) := by
  have hdn1 : containsSub dnMark (b ++ dnDot ++ rest) = true :=
    containsSub_middle b rest (by decide)
  have hla2 : containsSub laMark (b ++ laDot ++ rest) = true :=
    containsSub_middle b rest (by decide)
  have hup3 : containsSub upMark (b ++ upDot ++ rest) = true :=
    containsSub_middle b rest (by decide)
  have hlb4 : containsSub lbMark (b ++ lbDot ++ rest) = true :=
    containsSub_middle b rest (by decide)
  have hlo1 : containsSub loraMark (b ++ dnDot ++ rest) = true :=
    containsSub_middle b rest (by decide)
  have hlo2 : containsSub loraMark (b ++ laDot ++ rest) = true :=
    containsSub_middle b rest (by decide)
  have hlo3 : containsSub loraMark (b ++ upDot ++ rest) = true :=
    containsSub_middle b rest (by decide)
  have hlo4 : containsSub loraMark (b ++ lbDot ++ rest) = true :=
    containsSub_middle b rest (by decide)
  have hc1 : classifyBase (b ++ dnDot ++ rest) = some (b, Role.down) := by
    simp only [classifyBase, hdn1, Bool.true_or, Bool.or_true, Bool.not_true,
      Bool.false_eq_true, if_false, if_true]
    rw [splitBefore_append (by decide) b rest h2]
  have hc2 : classifyBase (b ++ laDot ++ rest) = some (b, Role.down) := by
    simp only [classifyBase, hla2, h4, h5, Bool.true_or, Bool.or_true, Bool.false_or,
      Bool.or_false, Bool.not_true, Bool.false_eq_true, if_false, if_true]
    rw [splitBefore_append (by decide) b rest h6]
  have hc3 : classifyBase (b ++ upDot ++ rest) = some (b, Role.up) := by
    simp only [classifyBase, hup3, h8, Bool.true_or, Bool.or_true, Bool.false_or,
      Bool.or_false, Bool.not_true, Bool.false_eq_true, if_false, if_true]
    rw [splitBefore_append (by decide) b rest h9]
  have hc4 : classifyBase (b ++ lbDot ++ rest) = some (b, Role.up) := by
    simp only [classifyBase, hlb4, h11, h12, h13, Bool.true_or, Bool.or_true, Bool.false_or,
      Bool.or_false, Bool.not_true, Bool.false_eq_true, if_false, if_true]
    rw [splitBefore_append (by decide) b rest h14]
  refine ⟨hc1, hc2, hc3, hc4, ?_, ?_, ?_, ?_, ?_, ?_⟩
  · simp only [keyTarget, hlo1, h1, hc1, Bool.not_true, Bool.false_eq_true, if_false]
  · simp only [keyTarget, hlo2, h3, hc2, Bool.not_true, Bool.false_eq_true, if_false]
  · simp only [keyTarget, hlo3, h7, hc3, Bool.not_true, Bool.false_eq_true, if_false]
  · simp only [keyTarget, hlo4, h10, hc4, Bool.not_true, Bool.false_eq_true, if_false]
  · intro weights groups v
    simp only [groupStep, hlo1, hlo2, h1, h3, hc1, hc2, Bool.not_true,
      Bool.false_eq_true, if_false]
  · intro weights groups v
    simp only [groupStep, hlo3, hlo4, h7, h10, hc3, hc4, Bool.not_true,
      Bool.false_eq_true, if_false]

/-- Claim C6 witness: a concrete attention-projection base path under all
four suffix conventions. -/
theorem c6_naming_convention_equivalence_witness :
    classifyBase ("blocks.0.attn.to_q".toList ++ dnDot ++ ".weight".toList)
        = some ("blocks.0.attn.to_q".toList, Role.down)
      ∧ classifyBase ("blocks.0.attn.to_q".toList ++ laDot ++ ".weight".toList)
        = some ("blocks.0.attn.to_q".toList, Role.down)
      ∧ keyTarget ("blocks.0.attn.to_q".toList ++ dnDot ++ ".weight".toList)
        = some (sanitizeKey "blocks.0.attn.to_q".toList, Role.down)
      ∧ groupStep [] [] ("blocks.0.attn.to_q".toList ++ dnDot ++ ".weight".toList, c3WitTensor)
        = groupStep [] [] ("blocks.0.attn.to_q".toList ++ laDot ++ ".weight".toList, c3WitTensor) := by
  have h := c6_naming_convention_equivalence "blocks.0.attn.to_q".toList ".weight".toList
    (by decide) (by decide) (by decide) (by decide) (by decide) (by decide) (by decide)
    (by decide) (by decide) (by decide) (by decide) (by decide) (by decide) (by decide)
  exact ⟨h.1, h.2.1, h.2.2.2.2.1, h.2.2.2.2.2.2.2.2.1 [] [] c3WitTensor⟩

/-- Claim C9 witness: a down-key for a module whose path contains `"alpha"`
is skipped by the grouping step. -/
theorem c9_alpha_keys_skipped_witness :
    groupStep [] [] ("blocks.0.alpha_proj.lora_down.weight".toList, c3WitTensor) = [] :=
  c9_alpha_keys_skipped.1 [] [] "blocks.0.alpha_proj.lora_down.weight".toList c3WitTensor
    (by decide)

end LTX
